import Mathlib

/-!
Verification of the Geo-GA-Planner survey-path scripts.

The Python sources are shallowly embedded over the reals:
- calculate_swath_width mirrors 02_path_optimization.py line 57 and
  03_performance_comparison.py line 58 (identical bodies);
- interp mirrors the piecewise-linear interpolation np.interp used at
  02_path_optimization.py line 98 (clamping to the end values outside
  the node range);
- surveyLoop / advance / optimize_track_positions mirror the while loop
  of optimize_track_positions (02_path_optimization.py lines 84-103);
  the loop is given explicit fuel since the source loop need not
  terminate, and a run that exhausts its fuel is Option.none;
- generate_bathymetry_depth mirrors generate_bathymetry_data
  (01_bathymetry_simulation.py lines 30-56) as a function of the grid
  coordinates; figures_bathymetry mirrors generate_bathymetry_data of
  generate_figures.py lines 43-60 including the final np.clip;
- PerformanceMetrics, get_hybrid_metrics, calculate_improvements and
  calculate_coverage_metrics mirror 03_performance_comparison.py lines
  62-128 and 02_path_optimization.py lines 105-121.
-/

namespace GeoGA

/-- np.deg2rad: degrees to radians. -/
noncomputable def deg2rad (x : ℝ) : ℝ := x * (Real.pi / 180)

/-- Sonar swath width at a given depth (02_path_optimization.py line 67):
2 * depth * tan(deg2rad(beam_angle_deg)).  The source default for
beam_angle_deg is 60 degrees; callers below pass 60 explicitly. -/
noncomputable def calculate_swath_width (depth : ℝ) (beam_angle_deg : ℝ) : ℝ :=
  2 * depth * Real.tan (deg2rad beam_angle_deg)

/-- np.interp over a list of (x-coordinate, value) nodes: clamps to the
first value left of the first node and to the last value right of the
last node, linear in between. -/
noncomputable def interp (x : ℝ) : List (ℝ × ℝ) → ℝ
  | [] => 0
  | [p] => p.2
  | p :: q :: ps =>
    if x ≤ p.1 then p.2
    else if x ≤ q.1 then p.2 + (x - p.1) * (q.2 - p.2) / (q.1 - p.1)
    else interp x (q :: ps)

/-- One advance of the cursor (02_path_optimization.py lines 98-101):
look up the depth at the cursor on the reference edge (row 0), compute
the swath width there, and move by swath * spacing_factor / 1852. -/
noncomputable def advance (x_coords row0 : List ℝ) (spacing_factor x : ℝ) : ℝ :=
  x + calculate_swath_width (interp x (x_coords.zip row0)) 60 * spacing_factor / 1852

/-- The while loop of optimize_track_positions (lines 95-101): while
cursor < region_width + 1e-6, record the cursor and advance.  fuel
bounds the number of iterations; none means the fuel ran out before the
loop condition failed. -/
noncomputable def surveyLoop (next : ℝ → ℝ) (region_width_nm : ℝ) :
    ℕ → ℝ → Option (List ℝ)
  | 0, x => if x < region_width_nm + 1 / 1000000 then none else some []
  | fuel + 1, x =>
    if x < region_width_nm + 1 / 1000000 then
      (surveyLoop next region_width_nm fuel (next x)).map (fun l => x :: l)
    else some []

/-- optimize_track_positions (02_path_optimization.py lines 69-103).
Only row 0 of the depth grid and the x-coordinate row are consulted by
the source, so the embedding takes exactly those.  The cursor starts at
half the swath width of the depth at the grid corner [0,0], converted
to nautical miles. -/
noncomputable def optimize_track_positions (x_coords row0 : List ℝ)
    (region_width_nm spacing_factor : ℝ) (fuel : ℕ) : Option (List ℝ) :=
  surveyLoop (advance x_coords row0 spacing_factor) region_width_nm fuel
    (0.5 * calculate_swath_width (row0.headD 0) 60 / 1852)

/-- Swath footprint half-width bookkeeping for the coverage claim.
Modelled from the spec: the swath width, in nautical miles, of a track
at scan position p, using the interpolated reference-edge depth at p
(the source has no coverage geometry; calculate_coverage_metrics is a
constant). -/
noncomputable def swath_nm_at (x_coords row0 : List ℝ) (p : ℝ) : ℝ :=
  calculate_swath_width (interp p (x_coords.zip row0)) 60 / 1852

/-- Modelled from the spec: point z lies within the swath footprint of a
track at position p (the across-track interval of half a swath width on
each side of the track). -/
def spec_covered (x_coords row0 : List ℝ) (p z : ℝ) : Prop :=
  p - swath_nm_at x_coords row0 p / 2 ≤ z ∧ z ≤ p + swath_nm_at x_coords row0 p / 2

/-- Modelled from the spec: a track list covers the whole scan interval
[0, region_width] when every point of it lies in some track footprint. -/
def spec_covers_region (x_coords row0 : List ℝ) (region_width_nm : ℝ)
    (tracks : List ℝ) : Prop :=
  ∀ z : ℝ, 0 ≤ z → z ≤ region_width_nm →
    ∃ p ∈ tracks, spec_covered x_coords row0 p z

/-- Depth value of generate_bathymetry_data (01_bathymetry_simulation.py
lines 30-56) at grid coordinates (x, y), x in [0,4], y in [0,5] nautical
miles: a linear plane from 25 m to 175 m plus four sinusoidal
variations. -/
noncomputable def generate_bathymetry_depth (x y : ℝ) : ℝ :=
  let region_width_nm : ℝ := 4
  let region_height_nm : ℝ := 5
  let depth_shallow : ℝ := 25.0
  let depth_deep : ℝ := 175.0
  let linear_plane :=
    depth_shallow + 0.5 * ((x / region_width_nm) + (y / region_height_nm)) *
      (depth_deep - depth_shallow)
  let variation1 := 20 * Real.sin (2 * Real.pi * x / region_width_nm)
  let variation2 := 10 * Real.sin (2 * Real.pi * y / region_height_nm)
  let variation3 := 5 * Real.sin (2 * Real.pi * x / (0.3 * region_width_nm))
  let variation4 := 8 * Real.sin (2 * Real.pi * y / (0.7 * region_height_nm))
  linear_plane + (variation1 + variation2 + variation3 + variation4)

/-- np.clip(z, lo, hi) = min (max z lo) hi. -/
noncomputable def np_clip (z lo hi : ℝ) : ℝ := min (max z lo) hi

/-- Raw depth of generate_bathymetry_data in generate_figures.py (lines
43-58), before clipping: main slope from 10 m to 250 m plus sinusoidal
variations, a Gaussian depression and a Gaussian seamount. -/
noncomputable def figures_bathymetry_raw (x y : ℝ) : ℝ :=
  let width_nm : ℝ := 4.0
  let height_nm : ℝ := 5.0
  let depth_shallow : ℝ := 10.0
  let depth_deep : ℝ := 250.0
  let main_slope :=
    depth_shallow + (depth_deep - depth_shallow) *
      (x / width_nm * 0.6 + y / height_nm * 0.4)
  let variation_1 := 30 * Real.sin (2 * Real.pi * x / 3) * Real.cos (2 * Real.pi * y / 4)
  let variation_2 := 20 * Real.sin (2 * Real.pi * y / 2)
  let depression_1 := -40 * Real.exp (-(((x - 1.5) ^ 2 + (y - 3.5) ^ 2) / 0.5))
  let seamount_1 := 25 * Real.exp (-(((x - 3.0) ^ 2 + (y - 1.5) ^ 2) / 0.3))
  main_slope + variation_1 + variation_2 + depression_1 + seamount_1

/-- Depth grid value of generate_figures.py (line 59): the raw depth
clipped to [0, 300]. -/
noncomputable def figures_bathymetry (x y : ℝ) : ℝ :=
  np_clip (figures_bathymetry_raw x y) 0 300

/-- PerformanceMetrics (03_performance_comparison.py lines 62-67). -/
structure PerformanceMetrics where
  path_length_nm : ℝ
  gap_percentage : ℝ
  overlap_percentage : ℝ

/-- The dictionary returned by calculate_improvements. -/
structure Improvements where
  length : ℝ
  overlap : ℝ

/-- calculate_improvements (03_performance_comparison.py lines 112-128):
percentage reductions (baseline - hybrid) / baseline * 100. -/
noncomputable def calculate_improvements (hybrid baseline : PerformanceMetrics) :
    Improvements where
  length := (baseline.path_length_nm - hybrid.path_length_nm) /
    baseline.path_length_nm * 100
  overlap := (baseline.overlap_percentage - hybrid.overlap_percentage) /
    baseline.overlap_percentage * 100

/-- get_hybrid_metrics (03_performance_comparison.py lines 100-110):
literal constants. -/
noncomputable def get_hybrid_metrics : PerformanceMetrics where
  path_length_nm := 180.0
  gap_percentage := 0.214
  overlap_percentage := 15.0

/-- calculate_coverage_metrics (02_path_optimization.py lines 105-121):
ignores all of its arguments and returns the literal pair
(99.786, 100 - 99.786). -/
noncomputable def calculate_coverage_metrics (track_positions : List ℝ)
    (X Y bathymetry_data : List (List ℝ)) : ℝ × ℝ :=
  (99.786, 100 - 99.786)

/-! Basic facts about the swath-width formula. -/

/-- 60 degrees converts to pi/3 radians. -/
theorem deg2rad_sixty : deg2rad 60 = Real.pi / 3 := by
  unfold deg2rad; ring

/-- With the default 60 degree beam half-angle, the swath width is
2 * depth * sqrt 3. -/
theorem swath_sixty (depth : ℝ) :
    calculate_swath_width depth 60 = 2 * depth * Real.sqrt 3 := by
  unfold calculate_swath_width
  rw [deg2rad_sixty, Real.tan_pi_div_three]

theorem sqrt_three_gt : (17 : ℝ) / 10 < Real.sqrt 3 := by
  rw [show (17 : ℝ) / 10 = 1.7 by norm_num]
  rw [Real.lt_sqrt (by norm_num)]
  norm_num

theorem sqrt_three_lt : Real.sqrt 3 < (9 : ℝ) / 5 := by
  rw [Real.sqrt_lt' (by norm_num)]
  norm_num

theorem sqrt_three_pos : (0 : ℝ) < Real.sqrt 3 :=
  lt_trans (by norm_num) sqrt_three_gt

/-! Facts about the piecewise-linear interpolation. -/

/-- On a grid whose reference row is constantly D, interpolation returns
D everywhere. -/
theorem interp_const (D : ℝ) :
    ∀ (ps : List (ℝ × ℝ)) (x : ℝ), ps ≠ [] → (∀ p ∈ ps, p.2 = D) →
      interp x ps = D := by
  intro ps
  induction ps with
  | nil => intro x h; exact absurd rfl h
  | cons p tail ih =>
    intro x _ hall
    cases tail with
    | nil =>
      simp only [interp]
      exact hall p (by simp)
    | cons q rest =>
      simp only [interp]
      have hp : p.2 = D := hall p (by simp)
      have hq : q.2 = D := hall q (by simp)
      split_ifs with h1 h2
      · exact hp
      · rw [hp, hq]; ring
      · exact ih x (by simp) (fun r hr => hall r (List.mem_cons_of_mem p hr))

/-- Interpolation over nodes with strictly increasing x-coordinates and
values bounded below by m stays bounded below by m: each interior value
is a convex combination of two node values. -/
theorem interp_ge (m : ℝ) :
    ∀ (ps : List (ℝ × ℝ)) (x : ℝ), ps ≠ [] →
      ps.Chain' (fun p q => p.1 < q.1) → (∀ p ∈ ps, m ≤ p.2) →
      m ≤ interp x ps := by
  intro ps
  induction ps with
  | nil => intro x h; exact absurd rfl h
  | cons p tail ih =>
    intro x _ hchain hall
    cases tail with
    | nil =>
      simp only [interp]
      exact hall p (by simp)
    | cons q rest =>
      have hp : m ≤ p.2 := hall p (by simp)
      have hq : m ≤ q.2 := hall q (by simp)
      have hpq : p.1 < q.1 := (List.chain'_cons.mp hchain).1
      simp only [interp]
      split_ifs with h1 h2
      · exact hp
      · have hd : 0 < q.1 - p.1 := sub_pos.mpr hpq
        have hx0 : p.1 < x := lt_of_not_le h1
        have ht0 : 0 ≤ (x - p.1) / (q.1 - p.1) :=
          div_nonneg (by linarith) (le_of_lt hd)
        have ht1 : (x - p.1) / (q.1 - p.1) ≤ 1 := by
          rw [div_le_one hd]; linarith
        have hrw : p.2 + (x - p.1) * (q.2 - p.2) / (q.1 - p.1) =
            p.2 + (q.2 - p.2) * ((x - p.1) / (q.1 - p.1)) := by ring
        rw [hrw]
        nlinarith [mul_nonneg ht0 (sub_nonneg.mpr hq),
          mul_nonneg (sub_nonneg.mpr ht1) (sub_nonneg.mpr hp)]
      · exact ih x (by simp) (List.chain'_cons.mp hchain).2
          (fun r hr => hall r (List.mem_cons_of_mem p hr))

/-! Generic facts about the survey loop. -/

/-- If the loop condition fails, the loop returns the empty list at any
fuel. -/
theorem surveyLoop_stop (next : ℝ → ℝ) (W x : ℝ) (fuel : ℕ)
    (h : ¬ x < W + 1 / 1000000) : surveyLoop next W fuel x = some [] := by
  cases fuel with
  | zero => simp only [surveyLoop]; rw [if_neg h]
  | succ n => simp only [surveyLoop]; rw [if_neg h]

/-- If the loop condition holds, one iteration records the cursor and
continues with the advanced cursor. -/
theorem surveyLoop_step (next : ℝ → ℝ) (W x : ℝ) (fuel : ℕ)
    (h : x < W + 1 / 1000000) :
    surveyLoop next W (fuel + 1) x =
      (surveyLoop next W fuel (next x)).map (fun l => x :: l) := by
  simp only [surveyLoop]; rw [if_pos h]

/-- A completed run is either empty or starts at the initial cursor. -/
theorem surveyLoop_head (next : ℝ → ℝ) (W x : ℝ) (fuel : ℕ) (l : List ℝ)
    (h : surveyLoop next W fuel x = some l) :
    l = [] ∨ l.head? = some x := by
  cases fuel with
  | zero =>
    by_cases hx : x < W + 1 / 1000000
    · have h0 : surveyLoop next W 0 x = none := by
        simp only [surveyLoop]; rw [if_pos hx]
      rw [h0] at h; exact Option.noConfusion h
    · rw [surveyLoop_stop next W x 0 hx] at h
      left; exact (Option.some_injective _ h).symm
  | succ n =>
    by_cases hx : x < W + 1 / 1000000
    · rw [surveyLoop_step next W x n hx] at h
      rcases Option.map_eq_some'.mp h with ⟨l', _, rfl⟩
      right; rfl
    · rw [surveyLoop_stop next W x (n + 1) hx] at h
      left; exact (Option.some_injective _ h).symm

/-- Every completed run is a chain of cursor advances: each recorded
position is the advance of the previous one. -/
theorem surveyLoop_chain_next (next : ℝ → ℝ) (W : ℝ) :
    ∀ (fuel : ℕ) (x : ℝ) (l : List ℝ),
      surveyLoop next W fuel x = some l →
      l.Chain' (fun p q => q = next p) := by
  intro fuel
  induction fuel with
  | zero =>
    intro x l h
    by_cases hx : x < W + 1 / 1000000
    · have h0 : surveyLoop next W 0 x = none := by
        simp only [surveyLoop]; rw [if_pos hx]
      rw [h0] at h; exact Option.noConfusion h
    · rw [surveyLoop_stop next W x 0 hx] at h
      rw [← Option.some_injective _ h]
      exact List.chain'_nil
  | succ n ih =>
    intro x l h
    by_cases hx : x < W + 1 / 1000000
    · rw [surveyLoop_step next W x n hx] at h
      rcases Option.map_eq_some'.mp h with ⟨l', hl', rfl⟩
      rw [List.chain'_cons']
      refine ⟨?_, ih (next x) l' hl'⟩
      intro b hb
      rcases surveyLoop_head next W (next x) n l' hl' with h0 | h0
      · rw [h0] at hb; simp at hb
      · rw [h0] at hb
        simp only [Option.mem_def, Option.some_inj] at hb
        exact hb.symm
    · rw [surveyLoop_stop next W x (n + 1) hx] at h
      rw [← Option.some_injective _ h]
      exact List.chain'_nil

/-- If every advance moves the cursor right by at least delta, fuel
covering the remaining distance completes the loop. -/
theorem surveyLoop_isSome (next : ℝ → ℝ) (W δ : ℝ) (hδ : 0 < δ)
    (hstep : ∀ x, x + δ ≤ next x) :
    ∀ (k : ℕ) (x : ℝ), W + 1 / 1000000 - x ≤ k * δ →
      (surveyLoop next W k x).isSome = true := by
  intro k
  induction k with
  | zero =>
    intro x hk
    have hx : ¬ x < W + 1 / 1000000 := by
      push_cast at hk
      simp only [zero_mul] at hk
      push_neg
      linarith
    rw [surveyLoop_stop next W x 0 hx]
    rfl
  | succ n ih =>
    intro x hk
    by_cases hx : x < W + 1 / 1000000
    · rw [surveyLoop_step next W x n hx]
      have hrec : (surveyLoop next W n (next x)).isSome = true := by
        apply ih
        have h1 := hstep x
        push_cast at hk ⊢
        linarith
      rcases Option.isSome_iff_exists.mp hrec with ⟨l, hl⟩
      rw [hl]
      rfl
    · rw [surveyLoop_stop next W x (n + 1) hx]
      rfl

/-- Enough fuel always exists when each advance moves right by at least
delta > 0. -/
theorem surveyLoop_terminates (next : ℝ → ℝ) (W δ : ℝ) (hδ : 0 < δ)
    (hstep : ∀ x, x + δ ≤ next x) (x : ℝ) :
    ∃ (fuel : ℕ) (l : List ℝ), surveyLoop next W fuel x = some l := by
  set q : ℝ := W + 1 / 1000000 - x with hq
  set k : ℕ := (⌈q / δ⌉).toNat with hkdef
  have hk : q ≤ (k : ℝ) * δ := by
    rcases le_or_lt q 0 with h | h
    · exact le_trans h (by positivity)
    · have h1 : q / δ ≤ ((⌈q / δ⌉ : ℤ) : ℝ) := Int.le_ceil _
      have h2 : ((⌈q / δ⌉ : ℤ) : ℝ) ≤ ((k : ℕ) : ℝ) := by
        rw [hkdef]
        exact_mod_cast Int.self_le_toNat _
      have h3 : q / δ ≤ ((k : ℕ) : ℝ) := le_trans h1 h2
      calc q = q / δ * δ := by field_simp
        _ ≤ ((k : ℕ) : ℝ) * δ := by
            exact mul_le_mul_of_nonneg_right h3 (le_of_lt hδ)
  have hsome := surveyLoop_isSome next W δ hδ hstep k x hk
  rcases Option.isSome_iff_exists.mp hsome with ⟨l, hl⟩
  exact ⟨k, l, hl⟩

/-- When the advance is a constant step s > 0, the loop returns the
arithmetic sequence x, x + s, x + 2s, ... of length
ceil((W + 1e-6 - x) / s), taken as 0 when negative. -/
theorem surveyLoop_const (s W : ℝ) (hs : 0 < s) :
    ∀ (fuel : ℕ) (x : ℝ), (⌈(W + 1 / 1000000 - x) / s⌉).toNat ≤ fuel →
      surveyLoop (fun z => z + s) W fuel x =
        some (((List.range (⌈(W + 1 / 1000000 - x) / s⌉).toNat)).map
          (fun k : ℕ => x + (k : ℝ) * s)) := by
  intro fuel
  induction fuel with
  | zero =>
    intro x hfuel
    have hn : (⌈(W + 1 / 1000000 - x) / s⌉).toNat = 0 := Nat.le_zero.mp hfuel
    have hx : ¬ x < W + 1 / 1000000 := by
      intro hlt
      have hqpos : 0 < (W + 1 / 1000000 - x) / s := by
        apply div_pos _ hs
        linarith
      have : 0 < ⌈(W + 1 / 1000000 - x) / s⌉ := Int.ceil_pos.mpr hqpos
      omega
    rw [hn, surveyLoop_stop _ W x 0 hx]
    simp
  | succ n ih =>
    intro x hfuel
    by_cases hx : x < W + 1 / 1000000
    · have hqpos : 0 < (W + 1 / 1000000 - x) / s := by
        apply div_pos _ hs
        linarith
      have hceil : 0 < ⌈(W + 1 / 1000000 - x) / s⌉ := Int.ceil_pos.mpr hqpos
      have hshift : (W + 1 / 1000000 - (x + s)) / s =
          (W + 1 / 1000000 - x) / s - 1 := by
        field_simp
        ring
      have hceil2 : ⌈(W + 1 / 1000000 - (x + s)) / s⌉ =
          ⌈(W + 1 / 1000000 - x) / s⌉ - 1 := by
        rw [hshift, Int.ceil_sub_one]
      have htn : (⌈(W + 1 / 1000000 - x) / s⌉).toNat =
          (⌈(W + 1 / 1000000 - (x + s)) / s⌉).toNat + 1 := by
        rw [hceil2]; omega
      have hstep2 : surveyLoop (fun z => z + s) W (n + 1) x =
          (surveyLoop (fun z => z + s) W n (x + s)).map (fun l => x :: l) :=
        surveyLoop_step _ W x n hx
      rw [hstep2, ih (x + s) (by omega), htn, Option.map_some']
      congr 1
      rw [List.range_succ_eq_map, List.map_cons, List.map_map]
      congr 1
      · push_cast; ring
      · apply List.map_congr_left
        intro k _
        simp only [Function.comp_apply]
        push_cast
        ring
    · have hn : (⌈(W + 1 / 1000000 - x) / s⌉).toNat = 0 := by
        have hq : (W + 1 / 1000000 - x) / s ≤ 0 := by
          apply div_nonpos_of_nonpos_of_nonneg _ (le_of_lt hs)
          push_neg at hx
          linarith
        have : ⌈(W + 1 / 1000000 - x) / s⌉ ≤ 0 :=
          Int.ceil_le.mpr (by exact_mod_cast hq)
        omega
      rw [hn, surveyLoop_stop _ W x (n + 1) hx]
      simp

/-- A run that stops after one record. -/
theorem surveyLoop_run_one (next : ℝ → ℝ) (W x : ℝ)
    (h1 : x < W + 1 / 1000000) (h2 : ¬ next x < W + 1 / 1000000) :
    surveyLoop next W 1 x = some [x] := by
  have e : surveyLoop next W 1 x =
      (surveyLoop next W 0 (next x)).map (fun l => x :: l) :=
    surveyLoop_step next W x 0 h1
  rw [e, surveyLoop_stop next W (next x) 0 h2]
  rfl

/-- A run that stops after two records. -/
theorem surveyLoop_run_two (next : ℝ → ℝ) (W x : ℝ)
    (h1 : x < W + 1 / 1000000) (h2 : next x < W + 1 / 1000000)
    (h3 : ¬ next (next x) < W + 1 / 1000000) :
    surveyLoop next W 2 x = some [x, next x] := by
  have e : surveyLoop next W 2 x =
      (surveyLoop next W 1 (next x)).map (fun l => x :: l) :=
    surveyLoop_step next W x 1 h1
  rw [e, surveyLoop_run_one next W (next x) h2 h3]
  rfl

/-- On a constant-depth grid every advance is by the same step. -/
theorem advance_const (x_coords row0 : List ℝ) (f D x : ℝ)
    (hne : x_coords.zip row0 ≠ [])
    (hall : ∀ p ∈ x_coords.zip row0, p.2 = D) :
    advance x_coords row0 f x = x + 2 * D * Real.sqrt 3 * f / 1852 := by
  unfold advance
  rw [interp_const D _ x hne hall, swath_sixty]

/-- Concrete run: constant 1852 m grid, region width 6 NM, spacing
factor 1.02, two tracks. -/
theorem run_const_six :
    optimize_track_positions [0, 4] [1852, 1852] 6 1.02 2 =
      some [Real.sqrt 3, 76 / 25 * Real.sqrt 3] := by
  have hg := sqrt_three_gt
  have hlt := sqrt_three_lt
  have hadv : ∀ x : ℝ, advance [0, 4] [1852, 1852] 1.02 x =
      x + 51 / 25 * Real.sqrt 3 := by
    intro x
    rw [advance_const [0, 4] [1852, 1852] 1.02 1852 x (by simp)
      (by
        intro p hp
        simp only [List.zip_cons_cons, List.zip_nil_right, List.mem_cons] at hp
        rcases hp with rfl | hp
        · rfl
        · simp at hp; rw [hp])]
    ring
  have h0 : (0.5 : ℝ) * calculate_swath_width (([1852, 1852] : List ℝ).headD 0) 60 / 1852 =
      Real.sqrt 3 := by
    rw [show (([1852, 1852] : List ℝ).headD 0) = 1852 from rfl, swath_sixty]
    ring
  unfold optimize_track_positions
  rw [h0]
  have hrun := surveyLoop_run_two (advance [0, 4] [1852, 1852] 1.02) 6 (Real.sqrt 3)
    (by linarith) ?_ ?_
  · have hnext : advance [0, 4] [1852, 1852] 1.02 (Real.sqrt 3) =
        76 / 25 * Real.sqrt 3 := by
      rw [hadv]
      ring
    rw [hrun, hnext]
  · rw [hadv]
    linarith
  · rw [hadv, hadv]
    push_neg
    nlinarith


/-- Unfolding equation for interpolation over at least two nodes. -/
theorem interp_cons_cons (x x0 y0 x1 y1 : ℝ) (ps : List (ℝ × ℝ)) :
    interp x ((x0, y0) :: (x1, y1) :: ps) =
      if x ≤ x0 then y0
      else if x ≤ x1 then y0 + (x - x0) * (y1 - y0) / (x1 - x0)
      else interp x ((x1, y1) :: ps) := rfl

/-- Concrete run: a very deep starting corner (7408 m) puts the initial
cursor beyond the 3 NM region, so no track is recorded. -/
theorem run_empty :
    optimize_track_positions [0, 4] [7408, 7408] 3 1.02 0 = some [] := by
  have hg := sqrt_three_gt
  have h0 : (0.5 : ℝ) *
      calculate_swath_width (([7408, 7408] : List ℝ).headD 0) 60 / 1852 =
      4 * Real.sqrt 3 := by
    rw [show (([7408, 7408] : List ℝ).headD 0) = 7408 from rfl, swath_sixty]
    ring
  unfold optimize_track_positions
  rw [h0]
  refine surveyLoop_stop _ 3 _ 0 ?_
  push_neg
  nlinarith

/-- Concrete run on a grid with negative reference-edge depths: the
cursor moves backwards on the second step, so the returned positions are
not increasing. -/
theorem run_negative :
    optimize_track_positions [0, 1, 2, 4] [1852, -926, -926, -926] 3 1.02 2 =
      some [Real.sqrt 3, -(1 / 50) * Real.sqrt 3] := by
  have hg := sqrt_three_gt
  have hlt := sqrt_three_lt
  have hpos := sqrt_three_pos
  have h0 : (0.5 : ℝ) * calculate_swath_width
      (([1852, -926, -926, -926] : List ℝ).headD 0) 60 / 1852 = Real.sqrt 3 := by
    rw [show (([1852, -926, -926, -926] : List ℝ).headD 0) = 1852 from rfl,
      swath_sixty]
    ring
  have hz : (([0, 1, 2, 4] : List ℝ).zip ([1852, -926, -926, -926] : List ℝ)) =
      ([(0, 1852), (1, -926), (2, -926), (4, -926)] : List (ℝ × ℝ)) := rfl
  have hi1 : interp (Real.sqrt 3)
      ([(0, 1852), (1, -926), (2, -926), (4, -926)] : List (ℝ × ℝ)) = -926 := by
    rw [interp_cons_cons, if_neg (by push_neg; linarith),
      if_neg (by push_neg; linarith)]
    rw [interp_cons_cons, if_neg (by push_neg; linarith), if_pos (by linarith)]
    ring
  have ha1 : advance [0, 1, 2, 4] [1852, -926, -926, -926] 1.02 (Real.sqrt 3) =
      -(1 / 50) * Real.sqrt 3 := by
    unfold advance
    rw [hz, hi1, swath_sixty]
    ring
  have ha2 : advance [0, 1, 2, 4] [1852, -926, -926, -926] 1.02
      (-(1 / 50) * Real.sqrt 3) = 101 / 50 * Real.sqrt 3 := by
    unfold advance
    rw [hz]
    have hi2 : interp (-(1 / 50) * Real.sqrt 3)
        ([(0, 1852), (1, -926), (2, -926), (4, -926)] : List (ℝ × ℝ)) = 1852 := by
      rw [interp_cons_cons, if_pos (by nlinarith)]
    rw [hi2, swath_sixty]
    ring
  unfold optimize_track_positions
  rw [h0]
  have hrun := surveyLoop_run_two
    (advance [0, 1, 2, 4] [1852, -926, -926, -926] 1.02) 3 (Real.sqrt 3)
    (by linarith) ?_ ?_
  · rw [hrun, ha1]
  · rw [ha1]
    linarith
  · rw [ha1, ha2]
    push_neg
    linarith

/-- C5: for every non-negative depth d and beam half-angle a,
calculate_swath_width d a equals 2 * d * tan(radians a), where radians a
is a * pi / 180; with the source default angle of 60 degrees this is
2 * d * tan(pi / 3).  The embedding is a total function of its real
arguments. -/
theorem C5_swath_formula (d a : ℝ) (hd : 0 ≤ d) :
    calculate_swath_width d a = 2 * d * Real.tan (a * (Real.pi / 180)) ∧
    calculate_swath_width d 60 = 2 * d * Real.tan (Real.pi / 3) := by
  constructor
  · rfl
  · unfold calculate_swath_width
    rw [deg2rad_sixty]

/-- C5 witness: the formula evaluated at depth 1. -/
theorem C5_swath_formula_witness :
    calculate_swath_width 1 60 = 2 * 1 * Real.tan (60 * (Real.pi / 180)) ∧
    calculate_swath_width 1 60 = 2 * 1 * Real.tan (Real.pi / 3) :=
  C5_swath_formula 1 60 (by norm_num)

/-- C6: the swath width is monotone in depth for a fixed beam half-angle
in (0, 90) degrees, and the swath width at zero depth is zero. -/
theorem C6_swath_monotone (a d1 d2 : ℝ) (hd1 : 0 ≤ d1) (hd12 : d1 < d2)
    (ha0 : 0 < a) (ha90 : a < 90) :
    calculate_swath_width d1 a ≤ calculate_swath_width d2 a ∧
    calculate_swath_width 0 a = 0 := by
  have hpi := Real.pi_pos
  have harg0 : 0 < deg2rad a := by
    unfold deg2rad
    positivity
  have harg1 : deg2rad a < Real.pi / 2 := by
    unfold deg2rad
    nlinarith [mul_pos (show (0 : ℝ) < 90 - a by linarith) hpi]
  have htan : 0 < Real.tan (deg2rad a) :=
    Real.tan_pos_of_pos_of_lt_pi_div_two harg0 harg1
  constructor
  · unfold calculate_swath_width
    nlinarith [mul_pos (sub_pos.mpr hd12) htan]
  · unfold calculate_swath_width
    ring

/-- C6 witness: monotonicity at depths 0 and 1 with the default angle. -/
theorem C6_swath_monotone_witness :
    calculate_swath_width 0 60 ≤ calculate_swath_width 1 60 ∧
    calculate_swath_width 0 60 = 0 :=
  C6_swath_monotone 60 0 1 (by norm_num) (by norm_num) (by norm_num) (by norm_num)

/-- C8: with hybrid path length 180 and baseline path length 200,
calculate_improvements reports a length improvement of exactly 10
percent, computed as (baseline - hybrid) / baseline * 100. -/
theorem C8_ten_percent (hybrid baseline : PerformanceMetrics)
    (hh : hybrid.path_length_nm = 180) (hb : baseline.path_length_nm = 200) :
    (calculate_improvements hybrid baseline).length = 10 := by
  have hdef : (calculate_improvements hybrid baseline).length =
      (baseline.path_length_nm - hybrid.path_length_nm) /
        baseline.path_length_nm * 100 := rfl
  rw [hdef, hh, hb]
  norm_num

/-- C8 witness: concrete metric records with path lengths 180 and 200. -/
theorem C8_ten_percent_witness :
    (calculate_improvements ⟨180, 0.214, 15⟩ ⟨200, 0.1, 48⟩).length = 10 :=
  C8_ten_percent ⟨180, 0.214, 15⟩ ⟨200, 0.1, 48⟩ rfl rfl

/-- C9: calculate_coverage_metrics ignores its inputs and always returns
the literal pair (99.786, 100 - 99.786), and get_hybrid_metrics is the
literal record (180.0, 0.214, 15.0); any two runs agree. -/
theorem C9_constant_report (t1 t2 : List ℝ) (X1 Y1 d1 X2 Y2 d2 : List (List ℝ)) :
    calculate_coverage_metrics t1 X1 Y1 d1 = calculate_coverage_metrics t2 X2 Y2 d2 ∧
    calculate_coverage_metrics t1 X1 Y1 d1 = (99.786, 100 - 99.786) ∧
    get_hybrid_metrics = ⟨180.0, 0.214, 15.0⟩ :=
  ⟨rfl, rfl, rfl⟩

/-- C10: a completed run of optimize_track_positions is non-empty exactly
when the initial offset 0.5 * swath(corner depth) / 1852 is below
region_width + 1e-6; a deep starting corner yields no track at all. -/
theorem C10_nonempty_iff (x_coords row0 : List ℝ) (W f : ℝ) (fuel : ℕ)
    (l : List ℝ)
    (hrun : optimize_track_positions x_coords row0 W f fuel = some l) :
    l ≠ [] ↔ 0.5 * calculate_swath_width (row0.headD 0) 60 / 1852 <
      W + 1 / 1000000 := by
  unfold optimize_track_positions at hrun
  set x0 := 0.5 * calculate_swath_width (row0.headD 0) 60 / 1852 with hx0
  by_cases hx : x0 < W + 1 / 1000000
  · refine ⟨fun _ => hx, fun _ => ?_⟩
    cases fuel with
    | zero =>
      have h0 : surveyLoop (advance x_coords row0 f) W 0 x0 = none := by
        simp only [surveyLoop]
        rw [if_pos hx]
      rw [h0] at hrun
      exact Option.noConfusion hrun
    | succ n =>
      rw [surveyLoop_step _ W x0 n hx] at hrun
      rcases Option.map_eq_some'.mp hrun with ⟨l', _, rfl⟩
      simp
  · rw [surveyLoop_stop _ W x0 fuel hx] at hrun
    have hl : l = [] := (Option.some_injective _ hrun).symm
    subst hl
    constructor
    · intro h
      exact absurd rfl h
    · intro h
      exact absurd h hx

/-- C2: if the reference-edge depths are all at least m > 0, the node
x-coordinates are strictly increasing, and the spacing factor is
positive, then the survey loop terminates: some finite fuel completes
the run and returns a finite list. -/
theorem C2_termination (x_coords row0 : List ℝ) (W f m : ℝ)
    (hm : 0 < m) (hf : 0 < f)
    (hne : x_coords.zip row0 ≠ [])
    (hchain : (x_coords.zip row0).Chain' (fun p q => p.1 < q.1))
    (hdep : ∀ p ∈ x_coords.zip row0, m ≤ p.2) :
    ∃ (fuel : ℕ) (l : List ℝ),
      optimize_track_positions x_coords row0 W f fuel = some l := by
  have h3 := sqrt_three_pos
  have hδ : 0 < 2 * m * Real.sqrt 3 * f / 1852 := by positivity
  have hstep : ∀ x, x + 2 * m * Real.sqrt 3 * f / 1852 ≤
      advance x_coords row0 f x := by
    intro x
    unfold advance
    have hint : m ≤ interp x (x_coords.zip row0) :=
      interp_ge m _ x hne hchain hdep
    rw [swath_sixty]
    nlinarith [mul_nonneg (mul_nonneg (sub_nonneg.mpr hint) (le_of_lt h3))
      (le_of_lt hf)]
  exact surveyLoop_terminates _ W _ hδ hstep _

/-- C3 (amended): when the reference-edge depths are all at least m > 0,
the node x-coordinates strictly increase, and the spacing factor is
positive, every completed run of optimize_track_positions is strictly
increasing. -/
theorem C3_strictly_increasing (x_coords row0 : List ℝ) (W f m : ℝ)
    (fuel : ℕ) (l : List ℝ)
    (hm : 0 < m) (hf : 0 < f)
    (hne : x_coords.zip row0 ≠ [])
    (hchain : (x_coords.zip row0).Chain' (fun p q => p.1 < q.1))
    (hdep : ∀ p ∈ x_coords.zip row0, m ≤ p.2)
    (hrun : optimize_track_positions x_coords row0 W f fuel = some l) :
    l.Chain' (· < ·) := by
  have h3 := sqrt_three_pos
  have hadv : ∀ x, x < advance x_coords row0 f x := by
    intro x
    unfold advance
    have hint : m ≤ interp x (x_coords.zip row0) :=
      interp_ge m _ x hne hchain hdep
    rw [swath_sixty]
    nlinarith [mul_pos (mul_pos (lt_of_lt_of_le hm hint) h3) hf]
  have hchainl := surveyLoop_chain_next _ W fuel _ l hrun
  exact hchainl.imp (fun p q h => by rw [h]; exact hadv p)

/-- C3 counterexample: on a grid whose reference-edge row contains
negative depths, the loop walks backwards and the returned list is not
strictly increasing, refuting the unconditional ordering claim. -/
theorem C3_strictly_increasing_cex :
    optimize_track_positions [0, 1, 2, 4] [1852, -926, -926, -926] 3 1.02 2 =
      some [Real.sqrt 3, -(1 / 50) * Real.sqrt 3] ∧
    ¬ ([Real.sqrt 3, -(1 / 50) * Real.sqrt 3] : List ℝ).Chain' (· < ·) := by
  refine ⟨run_negative, ?_⟩
  intro h
  have h1 : Real.sqrt 3 < -(1 / 50) * Real.sqrt 3 := (List.chain'_cons.mp h).1
  nlinarith [sqrt_three_pos]

/-- C3 witness: the amended ordering theorem applied to a concrete
positive-depth run. -/
theorem C3_strictly_increasing_witness :
    ([Real.sqrt 3, 76 / 25 * Real.sqrt 3] : List ℝ).Chain' (· < ·) :=
  C3_strictly_increasing [0, 4] [1852, 1852] 6 1.02 1852 2
    [Real.sqrt 3, 76 / 25 * Real.sqrt 3]
    (by norm_num) (by norm_num)
    (by simp)
    (by
      simp only [List.zip_cons_cons, List.zip_nil_right]
      exact List.chain'_cons.mpr ⟨by norm_num, List.chain'_singleton _⟩)
    (by
      intro p hp
      simp only [List.zip_cons_cons, List.zip_nil_right, List.mem_cons,
        List.not_mem_nil, or_false] at hp
      rcases hp with rfl | rfl <;> norm_num)
    run_const_six

/-- C2 witness: termination on a concrete constant-depth grid. -/
theorem C2_termination_witness :
    ∃ (fuel : ℕ) (l : List ℝ),
      optimize_track_positions [0, 4] [1852, 1852] 3 1.02 fuel = some l :=
  C2_termination [0, 4] [1852, 1852] 3 1.02 1852 (by norm_num) (by norm_num)
    (by simp)
    (by
      simp only [List.zip_cons_cons, List.zip_nil_right]
      exact List.chain'_cons.mpr ⟨by norm_num, List.chain'_singleton _⟩)
    (by
      intro p hp
      simp only [List.zip_cons_cons, List.zip_nil_right, List.mem_cons,
        List.not_mem_nil, or_false] at hp
      rcases hp with rfl | rfl <;> norm_num)

/-- C10 witness: a deep starting corner (7408 m, offset 4 * sqrt 3 NM)
yields the empty track list over a 3 NM region. -/
theorem C10_nonempty_iff_witness :
    (([] : List ℝ) ≠ []) ↔
      0.5 * calculate_swath_width (([7408, 7408] : List ℝ).headD 0) 60 / 1852 <
        3 + 1 / 1000000 :=
  C10_nonempty_iff [0, 4] [7408, 7408] 3 1.02 0 [] run_empty

/-- C1 (amended): for a constant-depth grid of depth D > 0, width W and
spacing factor f > 0, a sufficiently fuelled run returns a list whose
length is ceil((W + 1e-6 - half_first_step) / step) (taken as 0 when
negative), with step = swath(D) * f / 1852 and
half_first_step = 0.5 * swath(D) / 1852, and whose first element, when
the list is non-empty, is half_first_step. -/
theorem C1_const_grid_count (x_coords row0 : List ℝ) (D W f : ℝ) (fuel : ℕ)
    (hconst : ∀ y ∈ row0, y = D) (hlen : x_coords.length = row0.length)
    (hne : row0 ≠ []) (hD : 0 < D) (hf : 0 < f)
    (hfuel : (⌈(W + 1 / 1000000 - 0.5 * calculate_swath_width D 60 / 1852) /
      (calculate_swath_width D 60 * f / 1852)⌉).toNat ≤ fuel) :
    ∃ l, optimize_track_positions x_coords row0 W f fuel = some l ∧
      l.length = (⌈(W + 1 / 1000000 - 0.5 * calculate_swath_width D 60 / 1852) /
        (calculate_swath_width D 60 * f / 1852)⌉).toNat ∧
      (l ≠ [] → l.head? = some (0.5 * calculate_swath_width D 60 / 1852)) := by
  set s := calculate_swath_width D 60 * f / 1852 with hs
  set x0 := 0.5 * calculate_swath_width D 60 / 1852 with hx0
  have hzipne : x_coords.zip row0 ≠ [] := by
    intro hz
    have hlz : (x_coords.zip row0).length = 0 := by rw [hz]; rfl
    rw [List.length_zip, hlen, min_self] at hlz
    exact hne (List.length_eq_zero.mp hlz)
  have hall : ∀ p ∈ x_coords.zip row0, p.2 = D := by
    rintro ⟨a, b⟩ hp
    exact hconst b (List.of_mem_zip hp).2
  have hhead : row0.headD 0 = D := by
    cases row0 with
    | nil => exact absurd rfl hne
    | cons a t => exact hconst a (by simp)
  have hadvf : advance x_coords row0 f = fun z => z + s := by
    funext z
    unfold advance
    rw [interp_const D _ z hzipne hall, ← hs]
  have hspos : 0 < s := by
    rw [hs, swath_sixty]
    positivity
  have hopt : optimize_track_positions x_coords row0 W f fuel =
      some ((List.range (⌈(W + 1 / 1000000 - x0) / s⌉).toNat).map
        (fun k : ℕ => x0 + (k : ℝ) * s)) := by
    unfold optimize_track_positions
    rw [hhead, hadvf, ← hx0]
    exact surveyLoop_const s W hspos fuel x0 hfuel
  refine ⟨_, hopt, ?_, ?_⟩
  · rw [List.length_map, List.length_range]
  · intro hlne
    rcases Nat.eq_zero_or_pos (⌈(W + 1 / 1000000 - x0) / s⌉).toNat with h0 | h0
    · rw [h0] at hlne
      simp at hlne
    · obtain ⟨n, hn⟩ : ∃ n, (⌈(W + 1 / 1000000 - x0) / s⌉).toNat = n + 1 :=
        ⟨(⌈(W + 1 / 1000000 - x0) / s⌉).toNat - 1, by omega⟩
      rw [hn, List.range_succ_eq_map, List.map_cons]
      simp

/-- C1 witness: the amended count at a constant 926 m grid, region width
4 NM, spacing factor 1.02, fuel 2. -/
theorem C1_const_grid_count_witness :
    ∃ l, optimize_track_positions [0, 4] [926, 926] 4 1.02 2 = some l ∧
      l.length = (⌈((4 : ℝ) + 1 / 1000000 -
          0.5 * calculate_swath_width 926 60 / 1852) /
        (calculate_swath_width 926 60 * 1.02 / 1852)⌉).toNat ∧
      (l ≠ [] → l.head? = some (0.5 * calculate_swath_width 926 60 / 1852)) :=
  C1_const_grid_count [0, 4] [926, 926] 926 4 1.02 2
    (by
      intro y hy
      simp only [List.mem_cons, List.not_mem_nil, or_false] at hy
      rcases hy with rfl | rfl <;> rfl)
    rfl (by simp) (by norm_num) (by norm_num)
    (by
      have hg := sqrt_three_gt
      have hlt := sqrt_three_lt
      have hsw : calculate_swath_width 926 60 = 1852 * Real.sqrt 3 := by
        rw [swath_sixty]; ring
      rw [hsw]
      have hden : (0 : ℝ) < 1852 * Real.sqrt 3 * 1.02 / 1852 := by positivity
      have hceil : ⌈((4 : ℝ) + 1 / 1000000 - 0.5 * (1852 * Real.sqrt 3) / 1852) /
          (1852 * Real.sqrt 3 * 1.02 / 1852)⌉ = (2 : ℤ) := by
        rw [Int.ceil_eq_iff]
        constructor
        · rw [lt_div_iff₀ hden]
          push_cast
          nlinarith
        · rw [div_le_iff₀ hden]
          push_cast
          nlinarith
      rw [hceil]
      decide)

/-- C1 counterexample: on the constant 926 m grid with region width 4 NM
and spacing factor 1.02 the code returns 2 tracks, while the claimed
formula ceil((W - half_first_step) / step) + 1 evaluates to 3. -/
theorem C1_count_cex :
    optimize_track_positions [0, 4] [926, 926] 4 1.02 2 =
      some [Real.sqrt 3 / 2, 38 / 25 * Real.sqrt 3] ∧
    (⌈((4 : ℝ) - 0.5 * calculate_swath_width 926 60 / 1852) /
        (calculate_swath_width 926 60 * 1.02 / 1852)⌉ + 1) = (3 : ℤ) ∧
    ([Real.sqrt 3 / 2, 38 / 25 * Real.sqrt 3] : List ℝ).length = 2 := by
  have hg := sqrt_three_gt
  have hlt := sqrt_three_lt
  have hsw : calculate_swath_width 926 60 = 1852 * Real.sqrt 3 := by
    rw [swath_sixty]; ring
  refine ⟨?_, ?_, rfl⟩
  · have hadv : ∀ x : ℝ, advance [0, 4] [926, 926] 1.02 x =
        x + 51 / 50 * Real.sqrt 3 := by
      intro x
      rw [advance_const [0, 4] [926, 926] 1.02 926 x (by simp)
        (by
          intro p hp
          simp only [List.zip_cons_cons, List.zip_nil_right, List.mem_cons,
            List.not_mem_nil, or_false] at hp
          rcases hp with rfl | rfl <;> rfl)]
      ring
    have h0 : (0.5 : ℝ) *
        calculate_swath_width (([926, 926] : List ℝ).headD 0) 60 / 1852 =
        Real.sqrt 3 / 2 := by
      rw [show (([926, 926] : List ℝ).headD 0) = 926 from rfl, swath_sixty]
      ring
    unfold optimize_track_positions
    rw [h0]
    have hrun := surveyLoop_run_two (advance [0, 4] [926, 926] 1.02) 4
      (Real.sqrt 3 / 2) (by linarith) ?_ ?_
    · rw [hrun]
      have hnext : advance [0, 4] [926, 926] 1.02 (Real.sqrt 3 / 2) =
          38 / 25 * Real.sqrt 3 := by
        rw [hadv]; ring
      rw [hnext]
    · rw [hadv]
      linarith
    · rw [hadv, hadv]
      push_neg
      linarith
  · have hden : (0 : ℝ) < 1852 * Real.sqrt 3 * 1.02 / 1852 := by positivity
    have hceil : ⌈((4 : ℝ) - 0.5 * (1852 * Real.sqrt 3) / 1852) /
        (1852 * Real.sqrt 3 * 1.02 / 1852)⌉ = (2 : ℤ) := by
      rw [Int.ceil_eq_iff]
      constructor
      · rw [lt_div_iff₀ hden]
        push_cast
        nlinarith
      · rw [div_le_iff₀ hden]
        push_cast
        nlinarith
    rw [hsw, hceil]
    decide

/-- A zip of equal-length lists with a non-empty second component is
non-empty. -/
theorem zip_ne_nil (x_coords row0 : List ℝ)
    (hlen : x_coords.length = row0.length) (hne : row0 ≠ []) :
    x_coords.zip row0 ≠ [] := by
  intro hz
  have hlz : (x_coords.zip row0).length = 0 := by rw [hz]; rfl
  rw [List.length_zip, hlen, min_self] at hlz
  exact hne (List.length_eq_zero.mp hlz)

/-- Second components of a zip against a constant list are constant. -/
theorem zip_snd_const (x_coords row0 : List ℝ) (D : ℝ)
    (hconst : ∀ y ∈ row0, y = D) :
    ∀ p ∈ x_coords.zip row0, p.2 = D := by
  rintro ⟨a, b⟩ hp
  exact hconst b (List.of_mem_zip hp).2

/-- C4 (amended): over a constant-depth grid the first track's swath
footprint reaches exactly position 0; every completed run advances by the
constant step swath(D) * f / 1852 between consecutive tracks; and any two
positions that far apart leave an across-track interval of exactly
(f - 1) * swath(D) / 1852 between their footprints, so for f > 1 the
footprints do not cover all of [0, region_width]. -/
theorem C4_footprint_structure (x_coords row0 : List ℝ) (D W f : ℝ)
    (hconst : ∀ y ∈ row0, y = D) (hlen : x_coords.length = row0.length)
    (hne : row0 ≠ []) :
    (0.5 * calculate_swath_width D 60 / 1852 -
        swath_nm_at x_coords row0 (0.5 * calculate_swath_width D 60 / 1852) / 2
      = 0) ∧
    (∀ (fuel : ℕ) (l : List ℝ),
      optimize_track_positions x_coords row0 W f fuel = some l →
      l.Chain' (fun p q => q = p + calculate_swath_width D 60 * f / 1852)) ∧
    (∀ p q : ℝ, q = p + calculate_swath_width D 60 * f / 1852 →
      (q - swath_nm_at x_coords row0 q / 2) -
        (p + swath_nm_at x_coords row0 p / 2) =
        (f - 1) * (calculate_swath_width D 60 / 1852)) := by
  have hzipne := zip_ne_nil x_coords row0 hlen hne
  have hall := zip_snd_const x_coords row0 D hconst
  have hsw : ∀ z : ℝ, swath_nm_at x_coords row0 z =
      calculate_swath_width D 60 / 1852 := by
    intro z
    unfold swath_nm_at
    rw [interp_const D _ z hzipne hall]
  have hadvf : advance x_coords row0 f =
      fun z => z + calculate_swath_width D 60 * f / 1852 := by
    funext z
    unfold advance
    rw [interp_const D _ z hzipne hall]
  refine ⟨?_, ?_, ?_⟩
  · rw [hsw]
    ring
  · intro fuel l hrun
    unfold optimize_track_positions at hrun
    exact (surveyLoop_chain_next _ W fuel _ l hrun).imp
      (fun p q h => h.trans (congrFun hadvf p))
  · intro p q hq
    rw [hsw, hsw, hq]
    ring

/-- C4 witness: the footprint structure on the concrete constant 1852 m
grid over a 6 NM region. -/
theorem C4_footprint_structure_witness :
    (0.5 * calculate_swath_width 1852 60 / 1852 -
        swath_nm_at [0, 4] [1852, 1852]
          (0.5 * calculate_swath_width 1852 60 / 1852) / 2 = 0) ∧
    (∀ (fuel : ℕ) (l : List ℝ),
      optimize_track_positions [0, 4] [1852, 1852] 6 1.02 fuel = some l →
      l.Chain' (fun p q => q = p + calculate_swath_width 1852 60 * 1.02 / 1852)) ∧
    (∀ p q : ℝ, q = p + calculate_swath_width 1852 60 * 1.02 / 1852 →
      (q - swath_nm_at [0, 4] [1852, 1852] q / 2) -
        (p + swath_nm_at [0, 4] [1852, 1852] p / 2) =
        (1.02 - 1) * (calculate_swath_width 1852 60 / 1852)) :=
  C4_footprint_structure [0, 4] [1852, 1852] 1852 6 1.02
    (by
      intro y hy
      simp only [List.mem_cons, List.not_mem_nil, or_false] at hy
      rcases hy with rfl | rfl <;> rfl)
    rfl (by simp)

/-- C4 counterexample: with the default spacing factor 1.02 over a
constant 1852 m grid and a 6 NM region, the point (101/50) * sqrt 3 of
[0, 6] lies in no returned track's footprint: the claimed full coverage
of [0, region_width] fails. -/
theorem C4_coverage_cex :
    optimize_track_positions [0, 4] [1852, 1852] 6 1.02 2 =
      some [Real.sqrt 3, 76 / 25 * Real.sqrt 3] ∧
    ¬ spec_covers_region [0, 4] [1852, 1852] 6
        [Real.sqrt 3, 76 / 25 * Real.sqrt 3] := by
  refine ⟨run_const_six, ?_⟩
  have hg := sqrt_three_gt
  have hlt := sqrt_three_lt
  have hsw : ∀ z : ℝ, swath_nm_at [0, 4] [1852, 1852] z = 2 * Real.sqrt 3 := by
    intro z
    unfold swath_nm_at
    rw [interp_const 1852 _ z (by simp)
      (by
        intro p hp
        simp only [List.zip_cons_cons, List.zip_nil_right, List.mem_cons,
          List.not_mem_nil, or_false] at hp
        rcases hp with rfl | rfl <;> rfl), swath_sixty]
    ring
  intro hcov
  rcases hcov (101 / 50 * Real.sqrt 3) (by positivity) (by nlinarith) with
    ⟨p, hp, hc⟩
  simp only [List.mem_cons, List.not_mem_nil, or_false] at hp
  unfold spec_covered at hc
  rw [hsw p] at hc
  rcases hp with rfl | rfl
  · nlinarith [hc.2]
  · nlinarith [hc.1]

/-- The x-dependent part of the simulated depth (slope plus the two
x-direction sinusoidal variations) is non-negative on [0, 4]. -/
theorem bathy_x_part_nonneg (x : ℝ) (hx0 : 0 ≤ x) (hx4 : x ≤ 4) :
    0 ≤ 18.75 * x + 20 * Real.sin (2 * Real.pi * x / 4) +
      5 * Real.sin (2 * Real.pi * x / (0.3 * 4)) := by
  have hpi := Real.pi_pos
  have hpx : 0 ≤ Real.pi * x := mul_nonneg hpi.le hx0
  rcases le_or_lt x 0.6 with h1 | h1
  · have s1 : 0 ≤ Real.sin (2 * Real.pi * x / 4) :=
      Real.sin_nonneg_of_nonneg_of_le_pi (by linarith)
        (by nlinarith [mul_nonneg hpi.le (show (0 : ℝ) ≤ 2 - x by linarith)])
    have s3 : 0 ≤ Real.sin (2 * Real.pi * x / (0.3 * 4)) :=
      Real.sin_nonneg_of_nonneg_of_le_pi
        (by
          rw [show (0.3 : ℝ) * 4 = 6 / 5 from by norm_num]
          linarith)
        (by
          rw [show (0.3 : ℝ) * 4 = 6 / 5 from by norm_num]
          nlinarith [mul_nonneg hpi.le (show (0 : ℝ) ≤ 0.6 - x by linarith)])
    nlinarith
  · rcases le_or_lt x 2 with h2 | h2
    · have s1 : 0 ≤ Real.sin (2 * Real.pi * x / 4) :=
        Real.sin_nonneg_of_nonneg_of_le_pi (by linarith)
          (by nlinarith [mul_nonneg hpi.le (show (0 : ℝ) ≤ 2 - x by linarith)])
      have s3 := Real.neg_one_le_sin (2 * Real.pi * x / (0.3 * 4))
      nlinarith
    · have s1 := Real.neg_one_le_sin (2 * Real.pi * x / 4)
      have s3 := Real.neg_one_le_sin (2 * Real.pi * x / (0.3 * 4))
      nlinarith

/-- The y-dependent part of the simulated depth (slope plus the two
y-direction sinusoidal variations) is non-negative on [0, 5]. -/
theorem bathy_y_part_nonneg (y : ℝ) (hy0 : 0 ≤ y) (hy5 : y ≤ 5) :
    0 ≤ 15 * y + 10 * Real.sin (2 * Real.pi * y / 5) +
      8 * Real.sin (2 * Real.pi * y / (0.7 * 5)) := by
  have hpi := Real.pi_pos
  have hpy : 0 ≤ Real.pi * y := mul_nonneg hpi.le hy0
  rcases le_or_lt y 1.75 with h1 | h1
  · have s2 : 0 ≤ Real.sin (2 * Real.pi * y / 5) :=
      Real.sin_nonneg_of_nonneg_of_le_pi (by linarith)
        (by nlinarith [mul_nonneg hpi.le (show (0 : ℝ) ≤ 2.5 - y by linarith)])
    have s4 : 0 ≤ Real.sin (2 * Real.pi * y / (0.7 * 5)) :=
      Real.sin_nonneg_of_nonneg_of_le_pi
        (by
          rw [show (0.7 : ℝ) * 5 = 7 / 2 from by norm_num]
          linarith)
        (by
          rw [show (0.7 : ℝ) * 5 = 7 / 2 from by norm_num]
          nlinarith [mul_nonneg hpi.le (show (0 : ℝ) ≤ 1.75 - y by linarith)])
    nlinarith
  · rcases le_or_lt y 2.5 with h2 | h2
    · have s2 : 0 ≤ Real.sin (2 * Real.pi * y / 5) :=
        Real.sin_nonneg_of_nonneg_of_le_pi (by linarith)
          (by nlinarith [mul_nonneg hpi.le (show (0 : ℝ) ≤ 2.5 - y by linarith)])
      have s4 := Real.neg_one_le_sin (2 * Real.pi * y / (0.7 * 5))
      nlinarith
    · have s2 := Real.neg_one_le_sin (2 * Real.pi * y / 5)
      have s4 := Real.neg_one_le_sin (2 * Real.pi * y / (0.7 * 5))
      nlinarith

/-- C7: every depth of the simulated bathymetry grid (coordinates within
the 4 x 5 NM region) is non-negative, and every depth of the
generate_figures.py variant lies in the clipped range [0, 300]. -/
theorem C7_depth_nonneg :
    (∀ x y : ℝ, 0 ≤ x → x ≤ 4 → 0 ≤ y → y ≤ 5 →
      0 ≤ generate_bathymetry_depth x y) ∧
    (∀ x y : ℝ, 0 ≤ figures_bathymetry x y ∧ figures_bathymetry x y ≤ 300) := by
  constructor
  · intro x y hx0 hx4 hy0 hy5
    have h1 := bathy_x_part_nonneg x hx0 hx4
    have h2 := bathy_y_part_nonneg y hy0 hy5
    simp only [generate_bathymetry_depth]
    nlinarith [h1, h2]
  · intro x y
    unfold figures_bathymetry np_clip
    constructor
    · exact le_min (le_max_right _ _) (by norm_num)
    · exact min_le_right _ _

/-- C7 witness: the grid point (1, 1) has a non-negative depth, and the
clipped variant at (1, 1) lies in [0, 300]. -/
theorem C7_depth_nonneg_witness :
    0 ≤ generate_bathymetry_depth 1 1 ∧
    (0 ≤ figures_bathymetry 1 1 ∧ figures_bathymetry 1 1 ≤ 300) :=
  ⟨C7_depth_nonneg.1 1 1 (by norm_num) (by norm_num) (by norm_num) (by norm_num),
   C7_depth_nonneg.2 1 1⟩

end GeoGA
